import Mathlib

/-! go-dotazure: project resolution (context.go) and environment loading (dotenv.go).

A shallow embedding of `NewAzdContext`, its options, the `AzdContext` accessors and
`Load`, followed by the properties the specification states about them.

Modelling conventions.

* Go `error` values are the inductive `Error`; `errors.Is` and `os.IsNotExist` are
  the functions `errorsIs` and `osIsNotExist` on it. A call returning `(T, error)` is
  an `Except Error T`.
* Paths follow the Unix rules of `path/filepath` (separator `/`). An absolute, cleaned
  directory path is the list of its components from the root (`Path`, the root
  being `[]`); `render` gives back the Go string. `filepath.Dir` is `dir`,
  `filepath.Join (p, elem)` is `join p elem`, `filepath.Abs` is `filepathAbs`.
* The file system (`afero.Fs`) is any pair of functions `stat` and `readFile` on path
  strings. The process (`Platform`) supplies `os.Getwd`, the default file system,
  `json.Unmarshal` for the descriptor, and the line parser of the `.env` format.
* The process environment is an association list; `Load` returns its outcome
  together with the environment it leaves behind.
-/

namespace Dotazure

/-! ## Errors -/

/-- The package-level sentinel errors that callers test with `errors.Is`. -/
inductive Sentinel where
  /-- The error `ErrNoProject` of context.go. -/
  | ErrNoProject
  /-- The error `ErrNoEnvironmentName` of context.go. -/
  | ErrNoEnvironmentName
  /-- The error `fs.ErrNotExist` (the same value as `os.ErrNotExist`). -/
  | ErrNotExist
  /-- The error `fs.ErrPermission`. -/
  | ErrPermission
  deriving DecidableEq, Repr

/-- Go error values, as far as `errors.Is` can tell them apart. -/
inductive Error where
  /-- A sentinel value created once with `errors.New`. -/
  | sentinel (s : Sentinel)
  /-- A `syscall.Errno`. -/
  | errno (code : Nat)
  /-- A `*fs.PathError`, which unwraps to `err`. -/
  | pathError (op : String) (path : String) (err : Error)
  /-- The result of `fmt.Errorf ("msg: %w", err)`, which unwraps to `err`. -/
  | wrapped (msg : String) (err : Error)
  /-- An error with a message only: no `Unwrap`, no `Is`. -/
  | message (msg : String)
  deriving DecidableEq, Repr

/-- The errno `ENOENT`. -/
def ENOENT : Nat := 2

/-- The errno `EACCES`. -/
def EACCES : Nat := 13

/-- The method `syscall.Errno.Is`, for the targets modelled. -/
def errnoIs (code : Nat) (target : Sentinel) : Bool :=
  match target with
  | .ErrNotExist => code == ENOENT
  | .ErrPermission => code == EACCES || code == 1
  | _ => false

/-- The function `errors.Is (err, target)` for a sentinel target: walks the `Unwrap` chain. -/
def errorsIs : Error → Sentinel → Bool
  | .sentinel s, target => s == target
  | .errno code, target => errnoIs code target
  | .pathError _ _ err, target => errorsIs err target
  | .wrapped _ err, target => errorsIs err target
  | .message _, _ => false

/-- The function `underlyingError` of package os: strips one `*PathError` layer. -/
def underlyingError : Error → Error
  | .pathError _ _ err => err
  | err => err

/-- The function `os.IsNotExist`: looks below one `*PathError` only, never through `%w`. -/
def osIsNotExist (err : Error) : Bool :=
  match underlyingError err with
  | .sentinel s => s == Sentinel.ErrNotExist
  | .errno code => errnoIs code Sentinel.ErrNotExist
  | _ => false

/-! ## Paths -/

/-- An absolute, cleaned path: its components from the root. -/
abbrev Path := List String

/-- The Go string of a path. -/
def render (p : Path) : String := "/" ++ "/".intercalate p

/-- The function `filepath.Dir` on an absolute cleaned path; the root is its own parent. -/
def dir (p : Path) : Path := p.dropLast

/-- Splits a character sequence at every `/`. -/
def splitChars : List Char → List (List Char)
  | [] => [[]]
  | c :: cs =>
    if c = '/' then [] :: splitChars cs
    else
      match splitChars cs with
      | [] => [[c]]
      | h :: t => (c :: h) :: t

/-- The components of a path string, empty ones included. -/
def splitPath (s : String) : List String := (splitChars s.toList).map String.mk

/-- The function `filepath.Clean` applied to the components `cs` below the absolute
path `base`: empty components and `.` are dropped, `..` removes the last component
(and is dropped at the root). -/
def cleanOnto (base : Path) : List String → Path
  | [] => base
  | c :: cs =>
    if c = "" ∨ c = "." then cleanOnto base cs
    else if c = ".." then cleanOnto (dir base) cs
    else cleanOnto (base ++ [c]) cs

/-- The function `filepath.Join (p, elem)` for an absolute cleaned `p`. -/
def join (p : Path) (elem : String) : Path := cleanOnto p (splitPath elem)

/-- The function `filepath.Join (p, e1, e2, ...)`: one cleaning of the whole. -/
def joinAll (p : Path) (elems : List String) : Path :=
  cleanOnto p (elems.map splitPath).flatten

/-- The function `filepath.IsAbs`. -/
def isAbs (s : String) : Bool := s.toList.head? == some '/'

/-! ## File system and process -/

deriving instance DecidableEq for Except

/-- The part of `fs.FileInfo` the code looks at. -/
structure FileInfo where
  /-- The method `IsDir`. -/
  isDir : Bool
  deriving DecidableEq, Repr

/-- The interface `afero.Fs`, restricted to the operations used. -/
structure Fs where
  /-- The method `Stat`. -/
  stat : String → Except Error FileInfo
  /-- The function `afero.ReadFile` on this file system. -/
  readFile : String → Except Error String

/-- The content of the descriptor: the struct `configFile`. -/
structure configFile where
  /-- The field `defaultEnvironment`; empty when absent. -/
  DefaultEnvironment : String
  deriving DecidableEq, Repr

/-- What the process and the libraries supply. -/
structure Platform where
  /-- The variable `defaultFs`, set to `afero.NewOsFs ()` by `init`. -/
  defaultFs : Fs
  /-- The function `os.Getwd`. -/
  getwd : Except Error String
  /-- The function `json.Unmarshal` into a `configFile`. -/
  jsonUnmarshal : String → Except Error configFile
  /-- Opening and reading a file of the operating system by name, as godotenv does. -/
  osReadFile : String → Except Error String
  /-- The parser of the `.env` format: the key-value map of a file content. -/
  dotenvParse : String → Except Error (List (String × String))

/-- The function `filepath.Abs`. -/
def filepathAbs (P : Platform) (s : String) : Except Error Path :=
  if isAbs s then .ok (cleanOnto [] (splitPath s))
  else
    match P.getwd with
    | .error e => .error e
    | .ok wd => .ok (cleanOnto [] (splitPath wd ++ splitPath s))

/-! ## context.go -/

/-- The struct `AzdContext`. The project directory is held as a `Path`; the Go
string is its `render`. -/
structure AzdContext where
  /-- The field `projectDirectory`. -/
  projectDirectory : Path
  /-- The field `environmentName`. -/
  environmentName : String
  deriving DecidableEq, Repr

/-- The struct `config`. An unset `fs` is `none`. -/
structure config where
  /-- The field `currentDirectory`. -/
  currentDirectory : String
  /-- The field `environmentName`. -/
  environmentName : String
  /-- The field `fs`. -/
  fs : Option Fs

/-- The method `config.FS`: the configured file system, else `defaultFs`. -/
def config.FS (P : Platform) (c : config) : Fs := c.fs.getD P.defaultFs

/-- The values of type `AzdContextOption` that the package and its test construct. -/
inductive AzdContextOption where
  /-- The option `WithCurrentDirectory (path)`. -/
  | WithCurrentDirectory (path : String)
  /-- The option `WithEnvironmentName (name)`. -/
  | WithEnvironmentName (name : String)
  /-- The option `WithFS (fs)` of context_test.go. -/
  | WithFS (fs : Fs)

/-- Running an option on the configuration. `WithCurrentDirectory` returns the error
of `Stat` (which is nil when the path exists and is not a directory, leaving the
configuration as it was); `WithEnvironmentName` rejects a name of length zero. -/
def AzdContextOption.apply (P : Platform) (c : config) : AzdContextOption → Except Error config
  | .WithCurrentDirectory path =>
    match (c.FS P).stat path with
    | .error err => .error err
    | .ok info =>
      if !info.isDir then .ok c
      else .ok { c with currentDirectory := path }
  | .WithEnvironmentName name =>
    if name.length = 0 then .error (.message "name cannot be empty")
    else .ok { c with environmentName := name }
  | .WithFS fs => .ok { c with fs := some fs }

/-- The first loop of `NewAzdContext`: the options in order, the first failure wrapped. -/
def applyOptions (P : Platform) (c : config) : List AzdContextOption → Except Error config
  | [] => .ok c
  | opt :: opts =>
    match opt.apply P c with
    | .error err => .error (.wrapped "setting option" err)
    | .ok c1 => applyOptions P c1 opts

/-- One turn of the search loop at `searchDir`: `Stat` of the joined marker path.
The result `true` is the first branch (the marker does not exist, or is a
directory: go to the parent), `false` is the second (found), an error the third. -/
def probe (fs : Fs) (searchDir : Path) : Except Error Bool :=
  let projectPath := join searchDir "azure.yaml"
  match fs.stat (render projectPath) with
  | .error err =>
    if osIsNotExist err then .ok true
    else .error (.wrapped "searching for project file" err)
  | .ok info => if info.isDir then .ok true else .ok false

/-- The ascent of `NewAzdContext`, on the components of `searchDir` in reverse order
(innermost first), so that taking `filepath.Dir` is taking the tail and the root,
the directory that is its own parent, is the empty list. -/
def ascend (fs : Fs) : List String → Except Error Path
  | [] =>
    match probe fs [] with
    | .error err => .error err
    | .ok true => .error (.sentinel .ErrNoProject)
    | .ok false => .ok []
  | c :: rest =>
    match probe fs (c :: rest).reverse with
    | .error err => .error err
    | .ok true => ascend fs rest
    | .ok false => .ok (c :: rest).reverse

/-- The search loop of `NewAzdContext` from `searchDir`. -/
def findProject (fs : Fs) (searchDir : Path) : Except Error Path :=
  ascend fs searchDir.reverse

/-- The lookup of the environment name in `.azure/config.json`. -/
def defaultEnvironmentName (P : Platform) (fs : Fs) (searchDir : Path) : Except Error String :=
  let environmentRoot := join searchDir ".azure"
  match fs.stat (render environmentRoot) with
  | .error _ => .error (.wrapped "checking config file" (.sentinel .ErrNotExist))
  | .ok info =>
    if !info.isDir then .error (.wrapped "checking config file" (.sentinel .ErrNotExist))
    else
      let environmentPath := join environmentRoot "config.json"
      match fs.readFile (render environmentPath) with
      | .error err => .error (.wrapped "reading config file" err)
      | .ok content =>
        match P.jsonUnmarshal content with
        | .error err => .error (.wrapped "deserializing config file" err)
        | .ok cfg =>
          if cfg.DefaultEnvironment = "" then .error (.sentinel .ErrNoEnvironmentName)
          else .ok cfg.DefaultEnvironment

/-- The start of the search: `os.Getwd` when no current directory is configured,
then `filepath.Abs`. -/
def searchStart (P : Platform) (c : config) : Except Error Path :=
  let cwd : Except Error String :=
    if c.currentDirectory = "" then
      match P.getwd with
      | .error err => .error (.wrapped "getting current directory" err)
      | .ok wd => .ok wd
    else .ok c.currentDirectory
  match cwd with
  | .error err => .error err
  | .ok currentDirectory =>
    match filepathAbs P currentDirectory with
    | .error err => .error (.wrapped "resolving path" err)
    | .ok start => .ok start

/-- The body of `NewAzdContext` after the options have run. -/
def resolve (P : Platform) (c : config) : Except Error AzdContext :=
  match searchStart P c with
  | .error err => .error err
  | .ok start =>
    match findProject (c.FS P) start with
    | .error err => .error err
    | .ok searchDir =>
      if c.environmentName = "" then
        match defaultEnvironmentName P (c.FS P) searchDir with
        | .error err => .error err
        | .ok name => .ok ⟨searchDir, name⟩
      else .ok ⟨searchDir, c.environmentName⟩

/-- The constructor `NewAzdContext (opts...)`. -/
def NewAzdContext (P : Platform) (opts : List AzdContextOption) : Except Error AzdContext :=
  match applyOptions P ⟨"", "", none⟩ opts with
  | .error err => .error err
  | .ok c => resolve P c

/-- The method `ProjectDirectory`. -/
def AzdContext.ProjectDirectory (c : AzdContext) : Path := c.projectDirectory

/-- The method `ProjectPath`. -/
def AzdContext.ProjectPath (c : AzdContext) : Path := join c.ProjectDirectory "azure.yaml"

/-- The method `EnvironmentDirectory`. -/
def AzdContext.EnvironmentDirectory (c : AzdContext) : Path := join c.ProjectDirectory ".azure"

/-- The method `EnvironmentName`. -/
def AzdContext.EnvironmentName (c : AzdContext) : String := c.environmentName

/-- The method `EnvironmentRoot`. -/
def AzdContext.EnvironmentRoot (c : AzdContext) : Path :=
  join c.EnvironmentDirectory c.environmentName

/-- The method `EnvironmentFile`. -/
def AzdContext.EnvironmentFile (c : AzdContext) : Path := join c.EnvironmentRoot ".env"

/-! ## dotenv.go -/

/-- The process environment: the variables that are set, with their values. -/
abbrev Env := List (String × String)

/-- The function `os.LookupEnv`. -/
def lookupEnv (env : Env) (key : String) : Option String := env.lookup key

/-- The errno `EINVAL`. -/
def EINVAL : Nat := 22

/-- The character with code zero. -/
def NUL : Char := Char.ofNat 0

/-- The arguments that `os.Setenv` accepts: a key that is not empty and holds
neither `=` nor NUL, and a value that holds no NUL. -/
def setenvAccepts (key value : String) : Bool :=
  key.length != 0 && !key.toList.any (fun ch => ch == '=' || ch == NUL)
    && !value.toList.any (fun ch => ch == NUL)

/-- The function `os.Setenv`: the error `EINVAL`, as a syscall error of `setenv`, for
a key or value it does not accept; otherwise the variable is set. -/
def setenv (key value : String) (env : Env) : Except Error Env :=
  if key.length = 0 then .error (.wrapped "setenv" (.errno EINVAL))
  else if key.toList.any (fun ch => ch == '=' || ch == NUL) then
    .error (.wrapped "setenv" (.errno EINVAL))
  else if value.toList.any (fun ch => ch == NUL) then
    .error (.wrapped "setenv" (.errno EINVAL))
  else .ok ((key, value) :: env.filter (fun kv => kv.1 != key))

/-- Modelled from the spec: the library godotenv, which is not part of the
repository. The statement that applies one assignment: `os.Setenv` with its error
discarded, so that a key or value it does not accept leaves the environment as it
was. -/
def setenvDiscardingError (key value : String) (env : Env) : Env :=
  match setenv key value env with
  | .ok env1 => env1
  | .error _ => env

/-- Modelled from the spec: the library godotenv, which is not part of the
repository. Each parsed assignment is applied to the process environment; in
replace mode every parsed key overwrites an existing variable of the same name,
otherwise a variable that was set before the call is left untouched and only
previously unset keys are applied. -/
def godotenvApply (overload : Bool) (envMap : List (String × String)) (env : Env) : Env :=
  envMap.foldl
    (fun acc kv =>
      if (lookupEnv env kv.1).isNone || overload then setenvDiscardingError kv.1 kv.2 acc
      else acc)
    env

/-- Modelled from the spec: the library godotenv, which is not part of the
repository. The file is read and parsed as `KEY=VALUE` assignments, which are then
applied; a failure to read or to parse is returned and nothing is applied. -/
def godotenvLoadFile (P : Platform) (filename : String) (overload : Bool) (env : Env) :
    Except Error Env :=
  match P.osReadFile filename with
  | .error err => .error err
  | .ok content =>
    match P.dotenvParse content with
    | .error err => .error err
    | .ok envMap => .ok (godotenvApply overload envMap env)

/-- Modelled from the spec: the function `godotenv.Load` (preserve policy). -/
def godotenvLoad (P : Platform) (filename : String) (env : Env) : Except Error Env :=
  godotenvLoadFile P filename false env

/-- Modelled from the spec: the function `godotenv.Overload` (replace policy). -/
def godotenvOverload (P : Platform) (filename : String) (env : Env) : Except Error Env :=
  godotenvLoadFile P filename true env

/-- The struct `loader`; a nil context is `none`. -/
structure loader where
  /-- The field `context`. -/
  context : Option AzdContext
  /-- The field `replace`. -/
  replace : Bool
  deriving DecidableEq, Repr

/-- The values of type `LoadOption`. -/
inductive LoadOption where
  /-- The option `WithContext (context)`; the pointer may be nil. -/
  | WithContext (context : Option AzdContext)
  /-- The option `WithReplace (replace)`. -/
  | WithReplace (replace : Bool)
  deriving DecidableEq, Repr

/-- Running a load option; neither can fail. -/
def LoadOption.apply (l : loader) : LoadOption → Except Error loader
  | .WithContext context => .ok { l with context := context }
  | .WithReplace replace => .ok { l with replace := replace }

/-- The first loop of `Load`: the options in order. -/
def applyLoadOptions (l : loader) : List LoadOption → Except Error loader
  | [] => .ok l
  | opt :: opts =>
    match opt.apply l with
    | .error err => .error (.wrapped "setting option" err)
    | .ok l1 => applyLoadOptions l1 opts

/-- What `Load` returns, with the process environment it leaves. -/
structure LoadResult where
  /-- The boolean result. -/
  loaded : Bool
  /-- The error result; `none` is nil. -/
  err : Option Error
  /-- The process environment after the call. -/
  env : Env
  deriving DecidableEq, Repr

/-- The end of `Load`, from the line that computes `path`. -/
def loadFile (P : Platform) (context : AzdContext) (replace : Bool) (env : Env) : LoadResult :=
  let path := render context.EnvironmentFile
  let res := if replace then godotenvOverload P path env else godotenvLoad P path env
  match res with
  | .error err =>
    if errorsIs err .ErrNotExist then ⟨false, none, env⟩
    else ⟨false, some (.wrapped "loading environment variables" err), env⟩
  | .ok env1 => ⟨true, none, env1⟩

/-- The function `Load (opts...)`, run in the process environment `env`. -/
def Load (P : Platform) (opts : List LoadOption) (env : Env) : LoadResult :=
  match applyLoadOptions ⟨none, false⟩ opts with
  | .error err => ⟨false, some err, env⟩
  | .ok l =>
    match l.context with
    | some context => loadFile P context l.replace env
    | none =>
      match NewAzdContext P [] with
      | .error err =>
        if errorsIs err .ErrNotExist then ⟨false, none, env⟩
        else ⟨false, some (.wrapped "getting default context" err), env⟩
      | .ok context => loadFile P context l.replace env

/-! ## Vocabulary of the specification -/

/-- The directory `p` contains `azure.yaml` as a regular file: `Stat` of the marker
path succeeds and does not report a directory. -/
def hasMarkerFile (fs : Fs) (p : Path) : Bool :=
  match fs.stat (render (join p "azure.yaml")) with
  | .ok info => !info.isDir
  | .error _ => false

/-- The marker is absent from `p` as far as the search is concerned: `Stat` of the
marker path reports that it does not exist, or reports a directory. -/
def markerMissing (fs : Fs) (p : Path) : Bool :=
  match fs.stat (render (join p "azure.yaml")) with
  | .ok info => info.isDir
  | .error err => osIsNotExist err

/-- The path named by `p` is a directory on `fs`. -/
def isDirectory (fs : Fs) (p : Path) : Bool :=
  match fs.stat (render p) with
  | .ok info => info.isDir
  | .error _ => false

/-- A name that is a single path component: not empty, not `.` or `..`, no `/`. -/
def isSimpleName (name : String) : Bool :=
  name != "" && name != "." && name != ".." && !name.toList.contains '/'

/-- The directories named by the options `WithCurrentDirectory` of a call. -/
def startDirectories : List AzdContextOption → List String
  | [] => []
  | .WithCurrentDirectory path :: opts => path :: startDirectories opts
  | _ :: opts => startDirectories opts

/-- The environment name that the options of a call leave in the configuration,
starting from `name`: that of the last `WithEnvironmentName`. -/
def overrideName (name : String) : List AzdContextOption → String
  | [] => name
  | .WithEnvironmentName n :: opts => overrideName n opts
  | _ :: opts => overrideName name opts

/-- The file system that the options of a call leave in force, starting from `fs`:
that of the last `WithFS`. -/
def fsAfter (fs : Fs) : List AzdContextOption → Fs
  | [] => fs
  | .WithFS f :: opts => fsAfter f opts
  | _ :: opts => fsAfter fs opts

/-- Two file systems agree on where the markers are, and on the directories `names`:
`Stat` answers the same on every marker path `azure.yaml` and on every name of
`names`. Nothing is asked of `ReadFile`, nor of `Stat` on any other path. -/
def statAgree (names : List String) (fs1 fs2 : Fs) : Prop :=
  (∀ p : Path, fs1.stat (render (join p "azure.yaml")) = fs2.stat (render (join p "azure.yaml")))
    ∧ ∀ s ∈ names, fs1.stat s = fs2.stat s

/-- Two options of the same call on two file systems: the same start directory, the
same environment name, or file systems that agree in the sense of `R`. -/
def optionAgree (R : Fs → Fs → Prop) : AzdContextOption → AzdContextOption → Prop
  | .WithCurrentDirectory path1, .WithCurrentDirectory path2 => path1 = path2
  | .WithEnvironmentName name1, .WithEnvironmentName name2 => name1 = name2
  | .WithFS fs1, .WithFS fs2 => R fs1 fs2
  | _, _ => False

/-- Two configurations of the same call on two file systems. -/
def configAgree (names : List String) (P1 P2 : Platform) (c1 c2 : config) : Prop :=
  c1.currentDirectory = c2.currentDirectory ∧ c1.environmentName = c2.environmentName ∧
    statAgree names (c1.FS P1) (c2.FS P2)

/-- Two outcomes of running options: the same error, or configurations that agree. -/
def outcomeAgree (names : List String) (P1 P2 : Platform) :
    Except Error config → Except Error config → Prop
  | .error err1, .error err2 => err1 = err2
  | .ok c1, .ok c2 => configAgree names P1 P2 c1 c2
  | _, _ => False

/-! ## Example file systems

In the manner of context_test.go: an in-memory file system given by its
directories and its files, and a process around it. -/

/-- An in-memory file system with the directories `dirs` and the files `files`
(name and content). A name that is neither fails with a `*PathError` around
`os.ErrNotExist`, as `afero.MemMapFs` does. -/
def memFs (dirs : List String) (files : List (String × String)) : Fs where
  stat name :=
    if dirs.contains name then .ok ⟨true⟩
    else if (files.lookup name).isSome then .ok ⟨false⟩
    else .error (.pathError "stat" name (.sentinel .ErrNotExist))
  readFile name :=
    match files.lookup name with
    | some content => .ok content
    | none => .error (.pathError "open" name (.sentinel .ErrNotExist))

/-- A descriptor reader for the examples: it knows the two descriptors of
context_test.go, with and without a default environment; anything else does not
parse. -/
def exampleUnmarshal (content : String) : Except Error configFile :=
  if content = "\x7b\"defaultEnvironment\":\"dev\"\x7d" then .ok ⟨"dev"⟩
  else if content = "\x7b\x7d" then .ok ⟨""⟩
  else .error (.message "invalid character")

/-- A line parser for the examples, which gives what godotenv gives on the contents
it knows: the one line `A=1`; the two lines `A=1` and `B=2`; the one line `A`
without a `=`, which godotenv reads as the empty key with the value `A`; the empty
file. Any other content is reported as an error. -/
def exampleParse (content : String) : Except Error (List (String × String)) :=
  if content = "A=1" then .ok [("A", "1")]
  else if content = "A=1\nB=2" then .ok [("A", "1"), ("B", "2")]
  else if content = "A" then .ok [("", "A")]
  else if content = "" then .ok []
  else .error (.message "unexpected character")

/-- A process whose operating-system files are those of `fs` and whose working
directory is `wd`. -/
def examplePlatform (fs : Fs) (wd : String) : Platform :=
  ⟨fs, .ok wd, exampleUnmarshal, fs.readFile, exampleParse⟩

/-- The layout of the test case "default environment", rooted at `/p`. -/
def projectFs : Fs :=
  memFs ["/", "/p", "/p/src", "/p/src/wd", "/p/.azure", "/p/.azure/dev"]
    [("/p/azure.yaml", ""), ("/p/.azure/config.json", "\x7b\"defaultEnvironment\":\"dev\"\x7d"),
     ("/p/.azure/dev/.env", "A=1\nB=2")]

/-- The project of `projectFs` with an environment file of the one line `A`. -/
def bareNameFs : Fs :=
  memFs ["/", "/p", "/p/src", "/p/src/wd", "/p/.azure", "/p/.azure/dev"]
    [("/p/azure.yaml", ""), ("/p/.azure/config.json", "\x7b\"defaultEnvironment\":\"dev\"\x7d"),
     ("/p/.azure/dev/.env", "A")]

/-- A project inside a project: markers in `/p` and in `/p/sub`. -/
def nestedFs : Fs :=
  memFs ["/", "/p", "/p/sub"] [("/p/azure.yaml", ""), ("/p/sub/azure.yaml", "")]

/-- A file system without any marker whose root may not be searched: `Stat` below
`/work` reports what is there, `Stat` of anything else fails with `EACCES`. -/
def confinedFs : Fs where
  stat name :=
    if name = "/work" then .ok ⟨true⟩
    else if name = "/work/azure.yaml" then
      .error (.pathError "stat" name (.errno ENOENT))
    else .error (.pathError "stat" name (.errno EACCES))
  readFile name := .error (.pathError "open" name (.errno EACCES))

/-- A file system with nothing in it but the directories `/` and `/work`. -/
def emptyFs : Fs := memFs ["/", "/work"] []

/-- A directory named `azure.yaml`, in `/p/src`, and no marker file anywhere. -/
def markerDirFs : Fs :=
  memFs ["/", "/p", "/p/src", "/p/src/azure.yaml", "/p/src/wd"] []

/-- The layout of the test case "no environment dir": a marker file and nothing else. -/
def noEnvironmentDirFs : Fs :=
  memFs ["/", "/p", "/p/src", "/p/src/wd"] [("/p/src/azure.yaml", "")]

/-- The layout of the test case "no default environment": the descriptor is the
empty object. -/
def noDefaultEnvironmentFs : Fs :=
  memFs ["/", "/p", "/p/src", "/p/src/wd", "/p/src/.azure"]
    [("/p/src/azure.yaml", ""), ("/p/src/.azure/config.json", "\x7b\x7d")]

/-- The project of `projectFs` without its `.azure` directory: the same marker
file, no descriptor, no environment. -/
def projectNoAzureFs : Fs :=
  memFs ["/", "/p", "/p/src", "/p/src/wd"] [("/p/azure.yaml", "")]

/-! ## Paths: lemmas -/

theorem join_azure_yaml (p : Path) : join p "azure.yaml" = p ++ ["azure.yaml"] := by
  have h : splitPath "azure.yaml" = ["azure.yaml"] := by decide
  simp [join, h, cleanOnto]

theorem join_dot_azure (p : Path) : join p ".azure" = p ++ [".azure"] := by
  have h : splitPath ".azure" = [".azure"] := by decide
  simp [join, h, cleanOnto]

theorem join_config_json (p : Path) : join p "config.json" = p ++ ["config.json"] := by
  have h : splitPath "config.json" = ["config.json"] := by decide
  simp [join, h, cleanOnto]

theorem join_dot_env (p : Path) : join p ".env" = p ++ [".env"] := by
  have h : splitPath ".env" = [".env"] := by decide
  simp [join, h, cleanOnto]

theorem cleanOnto_append (base : Path) (xs ys : List String) :
    cleanOnto base (xs ++ ys) = cleanOnto (cleanOnto base xs) ys := by
  induction xs generalizing base with
  | nil => rfl
  | cons x xs ih =>
    simp only [List.cons_append, cleanOnto]
    split_ifs <;> exact ih _

theorem splitChars_of_no_slash (cs : List Char) (h : cs.contains '/' = false) :
    splitChars cs = [cs] := by
  induction cs with
  | nil => rfl
  | cons c cs ih =>
    simp only [List.contains_cons, Bool.or_eq_false_iff] at h
    have hc : c ≠ '/' := by
      intro hc
      subst hc
      simp at h
    simp [splitChars, hc, ih h.2]

theorem splitPath_of_simple (name : String) (h : isSimpleName name = true) :
    splitPath name = [name] := by
  simp only [isSimpleName, Bool.and_eq_true, Bool.not_eq_true_eq_eq_false] at h
  have h2 : splitChars name.toList = [name.toList] := splitChars_of_no_slash _ h.2
  unfold splitPath
  rw [h2]
  rfl

theorem join_of_simple (p : Path) (name : String) (h : isSimpleName name = true) :
    join p name = p ++ [name] := by
  have hs := splitPath_of_simple name h
  simp only [isSimpleName, Bool.and_eq_true, bne_iff_ne, ne_eq] at h
  simp [join, hs, cleanOnto, h.1.1.1, h.1.1.2, h.1.2]

/-- The nested joins of `EnvironmentFile` are the single `filepath.Join` of the
project directory, `.azure`, the environment name and `.env`. -/
theorem environmentFile_eq_joinAll (c : AzdContext) :
    c.EnvironmentFile = joinAll c.ProjectDirectory [".azure", c.EnvironmentName, ".env"] := by
  simp [AzdContext.EnvironmentFile, AzdContext.EnvironmentRoot,
    AzdContext.EnvironmentDirectory, AzdContext.EnvironmentName, join, joinAll,
    cleanOnto_append]

/-! ## The ascent -/

theorem probe_of_missing (fs : Fs) (p : Path) (h : markerMissing fs p = true) :
    probe fs p = .ok true := by
  unfold markerMissing at h
  unfold probe
  cases hs : fs.stat (render (join p "azure.yaml")) with
  | error err => simp [hs] at h ⊢; simp [h]
  | ok info => simp [hs] at h ⊢; simp [h]

theorem probe_of_file (fs : Fs) (p : Path) (h : hasMarkerFile fs p = true) :
    probe fs p = .ok false := by
  unfold hasMarkerFile at h
  unfold probe
  cases hs : fs.stat (render (join p "azure.yaml")) with
  | error err => simp [hs] at h
  | ok info => simp [hs] at h ⊢; simp [h]

theorem ascend_of_file (fs : Fs) (r : List String) (h : hasMarkerFile fs r.reverse = true) :
    ascend fs r = .ok r.reverse := by
  cases r with
  | nil =>
    have hp := probe_of_file fs [] (by simpa using h)
    simp [ascend, hp]
  | cons c rest =>
    have hp := probe_of_file fs _ h
    simp only [ascend, hp]

theorem ascend_of_missing (fs : Fs) (r : List String) (h : markerMissing fs r.reverse = true) :
    ascend fs r = match r with
      | [] => .error (.sentinel .ErrNoProject)
      | _ :: rest => ascend fs rest := by
  cases r with
  | nil =>
    have hp := probe_of_missing fs [] (by simpa using h)
    simp [ascend, hp]
  | cons c rest =>
    have hp := probe_of_missing fs _ h
    simp only [ascend, hp]

/-- The search as the loop of the source: one `Stat`, then stop, fail at the
directory that is its own parent, or go on from the parent. -/
theorem findProject_loop (fs : Fs) (searchDir : Path) :
    findProject fs searchDir =
      match probe fs searchDir with
      | .error err => .error err
      | .ok false => .ok searchDir
      | .ok true =>
        if dir searchDir = searchDir then .error (.sentinel .ErrNoProject)
        else findProject fs (dir searchDir) := by
  induction searchDir using List.reverseRecOn with
  | nil =>
    simp only [findProject, List.reverse_nil, ascend, dir, List.dropLast_nil, if_true]
    cases probe fs [] with
    | error err => rfl
    | ok b => cases b <;> rfl
  | append_singleton init last _ =>
    have hne : init ++ [last] ≠ init := by
      intro h
      have := congrArg List.length h
      simp at this
    simp only [findProject, List.reverse_append, List.reverse_cons, List.reverse_nil,
      List.nil_append, List.singleton_append, ascend, List.reverse_reverse, dir,
      List.dropLast_concat, hne.symm, if_false]
    cases probe fs (init ++ [last]) with
    | error err => rfl
    | ok b => cases b <;> rfl

theorem ascend_all_missing (fs : Fs) (r : List String)
    (h : ∀ t, t <:+ r → markerMissing fs t.reverse = true) :
    ascend fs r = .error (.sentinel .ErrNoProject) := by
  induction r with
  | nil => simpa using ascend_of_missing fs [] (h [] (List.suffix_refl _))
  | cons c rest ih =>
    rw [ascend_of_missing fs (c :: rest) (h _ (List.suffix_refl _))]
    exact ih (fun t ht => h t (ht.trans (List.suffix_cons c rest)))

theorem ascend_skip (fs : Fs) (r dr : List String)
    (h : ∀ t, t <:+ r → t ≠ [] → markerMissing fs (t ++ dr).reverse = true) :
    ascend fs (r ++ dr) = ascend fs dr := by
  induction r with
  | nil => rfl
  | cons c rest ih =>
    have h1 := h (c :: rest) (List.suffix_refl _) (by simp)
    rw [ascend_of_missing fs (c :: rest ++ dr) h1]
    exact ih (fun t ht hne => h t (ht.trans (List.suffix_cons c rest)) hne)

/-- The search from `d ++ suffix` stops at `d` when `d` holds the marker file and no
directory strictly below it on the way does. -/
theorem findProject_nearest (fs : Fs) (d suffix : Path)
    (hd : hasMarkerFile fs d = true)
    (hbelow : ∀ t, t <+: suffix → t ≠ [] → markerMissing fs (d ++ t) = true) :
    findProject fs (d ++ suffix) = .ok d := by
  unfold findProject
  rw [List.reverse_append, ascend_skip fs suffix.reverse d.reverse]
  · simpa using ascend_of_file fs d.reverse (by simpa using hd)
  · intro t ht hne
    have ht2 : t.reverse <+: suffix := by
      have := List.reverse_prefix.mpr ht
      simpa using this
    have := hbelow t.reverse ht2 (by simpa using hne)
    simpa using this

/-- The search fails with `ErrNoProject` when the marker is missing from the start
directory and from every directory above it. -/
theorem findProject_none (fs : Fs) (start : Path)
    (h : ∀ t, t <+: start → markerMissing fs t = true) :
    findProject fs start = .error (.sentinel .ErrNoProject) := by
  unfold findProject
  apply ascend_all_missing
  intro t ht
  apply h
  have := List.reverse_prefix.mpr ht
  simpa using this

/-! ## Claims about the search -/

/-- Claim C1 as stated fails: `/p` holds the marker file and the start directory
`/p/sub` is below it, an environment name is given, yet the context returned has
the project directory `/p/sub`, which holds a marker file of its own. -/
theorem C1_nested_project_counterexample :
    hasMarkerFile nestedFs ["p"] = true ∧
    filepathAbs (examplePlatform nestedFs "/p/sub") "/p/sub" = .ok (["p"] ++ ["sub"]) ∧
    NewAzdContext (examplePlatform nestedFs "/p/sub")
      [.WithFS nestedFs, .WithCurrentDirectory "/p/sub", .WithEnvironmentName "dev"]
      = .ok ⟨["p", "sub"], "dev"⟩ ∧
    AzdContext.ProjectDirectory ⟨["p", "sub"], "dev"⟩ ≠ ["p"] := by
  decide

/-- Claim C1, amended: when the start directory is `d ++ suffix`, the directory `d`
holds `azure.yaml` as a regular file, and in every directory strictly below `d` on
the way from the start `Stat` reports the marker as not existing or as a directory
(so `d` is the nearest directory with the marker file), then `NewAzdContext`, given an
environment name by override or by a descriptor it can resolve, returns a context
whose `ProjectDirectory` is exactly `d`, whatever the length of `suffix`. -/
theorem NewAzdContext_finds_nearest_project (P : Platform) (opts : List AzdContextOption)
    (c : config) (d suffix : Path) (name : String)
    (hopts : applyOptions P ⟨"", "", none⟩ opts = .ok c)
    (hstart : searchStart P c = .ok (d ++ suffix))
    (hd : hasMarkerFile (c.FS P) d = true)
    (hbelow : ∀ t ∈ suffix.inits, t ≠ [] → markerMissing (c.FS P) (d ++ t) = true)
    (hname : (c.environmentName ≠ "" ∧ name = c.environmentName) ∨
      (c.environmentName = "" ∧ defaultEnvironmentName P (c.FS P) d = .ok name)) :
    NewAzdContext P opts = .ok ⟨d, name⟩ ∧ AzdContext.ProjectDirectory ⟨d, name⟩ = d := by
  have hfind : findProject (c.FS P) (d ++ suffix) = .ok d :=
    findProject_nearest _ d suffix hd (fun t ht hne => hbelow t ((List.mem_inits t suffix).mpr ht) hne)
  refine ⟨?_, rfl⟩
  rcases hname with ⟨hne, rfl⟩ | ⟨hempty, hdesc⟩
  · simp [NewAzdContext, hopts, resolve, hstart, hfind, hne]
  · simp [NewAzdContext, hopts, resolve, hstart, hfind, hempty, hdesc]

/-- The amended claim C1 on the layout of the test case "default environment": from
`/p/src/wd`, two levels below the project, the project directory is `/p`. -/
theorem NewAzdContext_finds_nearest_project_witness :
    NewAzdContext (examplePlatform projectFs "/") [.WithFS projectFs, .WithCurrentDirectory "/p/src/wd"]
      = .ok ⟨["p"], "dev"⟩ ∧ AzdContext.ProjectDirectory ⟨["p"], "dev"⟩ = ["p"] :=
  NewAzdContext_finds_nearest_project (examplePlatform projectFs "/")
    [.WithFS projectFs, .WithCurrentDirectory "/p/src/wd"]
    ⟨"/p/src/wd", "", some projectFs⟩ ["p"] ["src", "wd"] "dev"
    (by rfl) (by decide) (by decide) (by decide) (by decide)

/-- Claim C3 as stated fails: no directory from `/work` up to the root holds
`azure.yaml` as a regular file, but `Stat` of `/azure.yaml` fails with `EACCES`, and
`NewAzdContext` returns that failure wrapped, which is not `ErrNoProject`. -/
theorem C3_stat_failure_counterexample :
    (∀ t ∈ (["work"] : Path).inits, hasMarkerFile confinedFs t = false) ∧
    NewAzdContext (examplePlatform confinedFs "/work") []
      = .error (.wrapped "searching for project file"
          (.pathError "stat" "/azure.yaml" (.errno EACCES))) ∧
    errorsIs (.wrapped "searching for project file"
      (.pathError "stat" "/azure.yaml" (.errno EACCES))) .ErrNoProject = false := by
  decide

/-- Claim C3, amended: when in the start directory and in every directory above it,
up to the root, `Stat` reports `azure.yaml` as not existing or as a directory (a
directory of that name is no match, the ascent goes on past it), `NewAzdContext`
returns no context and the error `ErrNoProject`. -/
theorem NewAzdContext_no_project (P : Platform) (opts : List AzdContextOption)
    (c : config) (start : Path)
    (hopts : applyOptions P ⟨"", "", none⟩ opts = .ok c)
    (hstart : searchStart P c = .ok start)
    (hmissing : ∀ t ∈ start.inits, markerMissing (c.FS P) t = true) :
    NewAzdContext P opts = .error (.sentinel .ErrNoProject) := by
  have hfind : findProject (c.FS P) start = .error (.sentinel .ErrNoProject) :=
    findProject_none _ start (fun t ht => hmissing t ((List.mem_inits t start).mpr ht))
  simp [NewAzdContext, hopts, resolve, hstart, hfind]

/-- The amended claim C3 from `/p/src/wd`, past the directory `/p/src/azure.yaml`. -/
theorem NewAzdContext_no_project_witness :
    NewAzdContext (examplePlatform markerDirFs "/") [.WithFS markerDirFs, .WithCurrentDirectory "/p/src/wd"]
      = .error (.sentinel .ErrNoProject) :=
  NewAzdContext_no_project (examplePlatform markerDirFs "/")
    [.WithFS markerDirFs, .WithCurrentDirectory "/p/src/wd"]
    ⟨"/p/src/wd", "", some markerDirFs⟩ ["p", "src", "wd"]
    (by rfl) (by decide) (by decide)

/-! ## Claims about the environment name -/

theorem defaultEnvironmentName_eq (P : Platform) (fs : Fs) (d : Path) (content : String)
    (cfg : configFile)
    (hdir : isDirectory fs (d ++ [".azure"]) = true)
    (hread : fs.readFile (render (d ++ [".azure", "config.json"])) = .ok content)
    (hjson : P.jsonUnmarshal content = .ok cfg) :
    defaultEnvironmentName P fs d =
      if cfg.DefaultEnvironment = "" then .error (.sentinel .ErrNoEnvironmentName)
      else .ok cfg.DefaultEnvironment := by
  unfold isDirectory at hdir
  unfold defaultEnvironmentName
  simp only [join_dot_azure, join_config_json, List.append_assoc, List.singleton_append]
  cases hs : fs.stat (render (d ++ [".azure"])) with
  | error err => simp [hs] at hdir
  | ok info =>
    simp only [hs] at hdir
    simp [hdir, hread, hjson]

theorem defaultEnvironmentName_of_no_dir (P : Platform) (fs : Fs) (d : Path)
    (hdir : isDirectory fs (d ++ [".azure"]) = false) :
    defaultEnvironmentName P fs d =
      .error (.wrapped "checking config file" (.sentinel .ErrNotExist)) := by
  unfold isDirectory at hdir
  unfold defaultEnvironmentName
  simp only [join_dot_azure]
  cases hs : fs.stat (render (d ++ [".azure"])) with
  | error err => rfl
  | ok info =>
    simp only [hs] at hdir
    simp [hdir]

/-- Claim C4: when the ascent from the start directory stops at `d`, no environment
name is set by an option, `d/.azure` is a directory and `d/.azure/config.json` parses
to a non-empty `defaultEnvironment` `e`, then `NewAzdContext` succeeds with
`ProjectDirectory = d` and `EnvironmentName = e`, and `EnvironmentFile` is the path
`filepath.Join (d, ".azure", e, ".env")`, which for a name `e` that is a single path
component has the components of `d` followed by `.azure`, `e`, `.env`. -/
theorem NewAzdContext_default_environment (P : Platform) (opts : List AzdContextOption)
    (c : config) (start d : Path) (content e : String)
    (hopts : applyOptions P ⟨"", "", none⟩ opts = .ok c)
    (hstart : searchStart P c = .ok start)
    (hfind : findProject (c.FS P) start = .ok d)
    (hnone : c.environmentName = "")
    (hdir : isDirectory (c.FS P) (d ++ [".azure"]) = true)
    (hread : (c.FS P).readFile (render (d ++ [".azure", "config.json"])) = .ok content)
    (hjson : P.jsonUnmarshal content = .ok ⟨e⟩)
    (he : e ≠ "") :
    NewAzdContext P opts = .ok ⟨d, e⟩ ∧
    AzdContext.ProjectDirectory ⟨d, e⟩ = d ∧
    AzdContext.EnvironmentName ⟨d, e⟩ = e ∧
    AzdContext.EnvironmentFile ⟨d, e⟩ = joinAll d [".azure", e, ".env"] ∧
    (isSimpleName e = true → AzdContext.EnvironmentFile ⟨d, e⟩ = d ++ [".azure", e, ".env"]) := by
  have hdesc := defaultEnvironmentName_eq P (c.FS P) d content ⟨e⟩ hdir hread hjson
  simp only [he, if_false] at hdesc
  refine ⟨?_, rfl, rfl, environmentFile_eq_joinAll ⟨d, e⟩, ?_⟩
  · simp [NewAzdContext, hopts, resolve, hstart, hfind, hnone, hdesc]
  · intro hsimple
    simp [AzdContext.EnvironmentFile, AzdContext.EnvironmentRoot,
      AzdContext.EnvironmentDirectory, AzdContext.ProjectDirectory, join_dot_azure,
      join_dot_env, join_of_simple _ e hsimple]

/-- Claim C4 on the test case "default environment": from `/p/src/wd` the context
is `/p` with `dev`, and the environment file is `/p/.azure/dev/.env`. -/
theorem NewAzdContext_default_environment_witness :
    NewAzdContext (examplePlatform projectFs "/") [.WithFS projectFs, .WithCurrentDirectory "/p/src/wd"]
      = .ok ⟨["p"], "dev"⟩ ∧
    render (AzdContext.EnvironmentFile ⟨["p"], "dev"⟩) = "/p/.azure/dev/.env" := by
  have h := NewAzdContext_default_environment (examplePlatform projectFs "/")
    [.WithFS projectFs, .WithCurrentDirectory "/p/src/wd"]
    ⟨"/p/src/wd", "", some projectFs⟩ ["p", "src", "wd"] ["p"]
    "\x7b\"defaultEnvironment\":\"dev\"\x7d" "dev"
    (by rfl) (by decide) (by decide) (by decide) (by decide) (by decide) (by decide) (by decide)
  refine ⟨h.1, ?_⟩
  rw [h.2.2.2.2 (by decide)]
  decide

/-- Claim C6: when a project directory `d` is found, no environment name is set by
an option, and `d/.azure/config.json` (in the directory `d/.azure`) is readable and
parses with `defaultEnvironment` absent or empty, `NewAzdContext` returns no context
and the error `ErrNoEnvironmentName`. -/
theorem NewAzdContext_no_default_environment (P : Platform) (opts : List AzdContextOption)
    (c : config) (start d : Path) (content : String)
    (hopts : applyOptions P ⟨"", "", none⟩ opts = .ok c)
    (hstart : searchStart P c = .ok start)
    (hfind : findProject (c.FS P) start = .ok d)
    (hnone : c.environmentName = "")
    (hdir : isDirectory (c.FS P) (d ++ [".azure"]) = true)
    (hread : (c.FS P).readFile (render (d ++ [".azure", "config.json"])) = .ok content)
    (hjson : P.jsonUnmarshal content = .ok ⟨""⟩) :
    NewAzdContext P opts = .error (.sentinel .ErrNoEnvironmentName) := by
  have hdesc := defaultEnvironmentName_eq P (c.FS P) d content ⟨""⟩ hdir hread hjson
  simp only [if_true] at hdesc
  simp [NewAzdContext, hopts, resolve, hstart, hfind, hnone, hdesc]

/-- Claim C6 on the test case "no default environment". -/
theorem NewAzdContext_no_default_environment_witness :
    NewAzdContext (examplePlatform noDefaultEnvironmentFs "/")
      [.WithFS noDefaultEnvironmentFs, .WithCurrentDirectory "/p/src/wd"]
      = .error (.sentinel .ErrNoEnvironmentName) :=
  NewAzdContext_no_default_environment (examplePlatform noDefaultEnvironmentFs "/")
    [.WithFS noDefaultEnvironmentFs, .WithCurrentDirectory "/p/src/wd"]
    ⟨"/p/src/wd", "", some noDefaultEnvironmentFs⟩ ["p", "src", "wd"] ["p", "src"] "\x7b\x7d"
    (by rfl) (by decide) (by decide) (by decide) (by decide) (by decide) (by decide)

/-- Claim C7: when a project directory `d` is found, no environment name is set by
an option, and `d/.azure` is missing or is not a directory, `NewAzdContext` fails with
an error for which `errors.Is (err, fs.ErrNotExist)` holds and
`errors.Is (err, ErrNoProject)` does not. -/
theorem NewAzdContext_no_environment_dir (P : Platform) (opts : List AzdContextOption)
    (c : config) (start d : Path)
    (hopts : applyOptions P ⟨"", "", none⟩ opts = .ok c)
    (hstart : searchStart P c = .ok start)
    (hfind : findProject (c.FS P) start = .ok d)
    (hnone : c.environmentName = "")
    (hdir : isDirectory (c.FS P) (d ++ [".azure"]) = false) :
    NewAzdContext P opts = .error (.wrapped "checking config file" (.sentinel .ErrNotExist)) ∧
    errorsIs (.wrapped "checking config file" (.sentinel .ErrNotExist)) .ErrNotExist = true ∧
    errorsIs (.wrapped "checking config file" (.sentinel .ErrNotExist)) .ErrNoProject = false := by
  have hdesc := defaultEnvironmentName_of_no_dir P (c.FS P) d hdir
  refine ⟨?_, rfl, rfl⟩
  simp [NewAzdContext, hopts, resolve, hstart, hfind, hnone, hdesc]

/-- Claim C7 on the test case "no environment dir". -/
theorem NewAzdContext_no_environment_dir_witness :
    NewAzdContext (examplePlatform noEnvironmentDirFs "/")
      [.WithFS noEnvironmentDirFs, .WithCurrentDirectory "/p/src/wd"]
      = .error (.wrapped "checking config file" (.sentinel .ErrNotExist)) :=
  (NewAzdContext_no_environment_dir (examplePlatform noEnvironmentDirFs "/")
    [.WithFS noEnvironmentDirFs, .WithCurrentDirectory "/p/src/wd"]
    ⟨"/p/src/wd", "", some noEnvironmentDirFs⟩ ["p", "src", "wd"] ["p", "src"]
    (by rfl) (by decide) (by decide) (by decide) (by decide)).1

theorem applyOptions_append (P : Platform) (c : config) (pre rest : List AzdContextOption) :
    applyOptions P c (pre ++ rest) =
      match applyOptions P c pre with
      | .error err => .error err
      | .ok c1 => applyOptions P c1 rest := by
  induction pre generalizing c with
  | nil => rfl
  | cons opt pre ih =>
    simp only [List.cons_append, applyOptions]
    cases opt.apply P c with
    | error err => rfl
    | ok c1 => exact ih c1

/-- Claim C8 as stated fails for a name of whitespace only: the name of one blank
is accepted by `WithEnvironmentName` and becomes the environment name of the
context. -/
theorem C8_whitespace_name_counterexample :
    (" ".toList.all Char.isWhitespace) = true ∧
    NewAzdContext (examplePlatform projectFs "/p/src/wd") [.WithEnvironmentName " "]
      = .ok ⟨["p"], " "⟩ ∧
    AzdContext.EnvironmentName ⟨["p"], " "⟩ = " " := by
  decide

/-- Claim C8, amended: for the empty environment-name override, the option made by
`WithEnvironmentName` fails with the validation error "name cannot be empty" on every
configuration, so a call of `NewAzdContext` with that option among its options
returns no context; when the options before it succeed, the error returned is that
validation error wrapped as "setting option". -/
theorem NewAzdContext_empty_environment_name (P : Platform)
    (opts pre post : List AzdContextOption)
    (hopts : opts = pre ++ AzdContextOption.WithEnvironmentName "" :: post) :
    (∀ c, (AzdContextOption.WithEnvironmentName "").apply P c
      = .error (.message "name cannot be empty")) ∧
    (NewAzdContext P opts).toOption = none ∧
    (∀ c, applyOptions P ⟨"", "", none⟩ pre = .ok c →
      NewAzdContext P opts
        = .error (.wrapped "setting option" (.message "name cannot be empty"))) := by
  subst hopts
  have happly : ∀ c, (AzdContextOption.WithEnvironmentName "").apply P c
      = .error (.message "name cannot be empty") := fun c => rfl
  refine ⟨happly, ?_, ?_⟩
  · unfold NewAzdContext
    rw [applyOptions_append]
    cases applyOptions P ⟨"", "", none⟩ pre with
    | error err => rfl
    | ok c => simp [applyOptions, happly, Except.toOption]
  · intro c hc
    unfold NewAzdContext
    rw [applyOptions_append, hc]
    simp [applyOptions, happly]

/-- The amended claim C8 on the project of the test cases: the empty name after a
file system and a start directory that are accepted. -/
theorem NewAzdContext_empty_environment_name_witness :
    NewAzdContext (examplePlatform projectFs "/")
      [.WithFS projectFs, .WithCurrentDirectory "/p/src/wd", .WithEnvironmentName ""]
      = .error (.wrapped "setting option" (.message "name cannot be empty")) :=
  (NewAzdContext_empty_environment_name (examplePlatform projectFs "/")
    [.WithFS projectFs, .WithCurrentDirectory "/p/src/wd", .WithEnvironmentName ""]
    [.WithFS projectFs, .WithCurrentDirectory "/p/src/wd"] [] rfl).2.2
    ⟨"/p/src/wd", "", some projectFs⟩ (by rfl)

theorem probe_congr (fs1 fs2 : Fs) (p : Path)
    (h : fs1.stat (render (join p "azure.yaml")) = fs2.stat (render (join p "azure.yaml"))) :
    probe fs1 p = probe fs2 p := by
  unfold probe
  simp only [h]

theorem ascend_congr (fs1 fs2 : Fs) (r : List String)
    (h : ∀ p : Path, fs1.stat (render (join p "azure.yaml"))
      = fs2.stat (render (join p "azure.yaml"))) :
    ascend fs1 r = ascend fs2 r := by
  induction r with
  | nil => simp only [ascend, probe_congr fs1 fs2 _ (h _)]
  | cons c rest ih => simp only [ascend, probe_congr fs1 fs2 _ (h _), ih]

theorem hasMarkerFile_of_probe (fs : Fs) (p : Path) (h : probe fs p = .ok false) :
    hasMarkerFile fs p = true := by
  unfold probe at h
  unfold hasMarkerFile
  cases hs : fs.stat (render (join p "azure.yaml")) with
  | error err =>
    simp only [hs] at h
    split_ifs at h
    cases h
  | ok info =>
    simp only [hs] at h
    cases hi : info.isDir with
    | true => simp [hi] at h
    | false => simp [hi]

theorem hasMarkerFile_of_ascend (fs : Fs) (r : List String) (d : Path)
    (h : ascend fs r = .ok d) : hasMarkerFile fs d = true := by
  induction r with
  | nil =>
    unfold ascend at h
    cases hp : probe fs [] with
    | error err => simp [hp] at h
    | ok b =>
      cases b with
      | true => simp [hp] at h
      | false =>
        simp only [hp, Except.ok.injEq] at h
        subst h
        exact hasMarkerFile_of_probe fs _ hp
  | cons c rest ih =>
    unfold ascend at h
    cases hp : probe fs (c :: rest).reverse with
    | error err =>
      rw [hp] at h
      cases h
    | ok b =>
      cases b with
      | true =>
        simp only [hp] at h
        exact ih h
      | false =>
        simp only [hp, Except.ok.injEq] at h
        subst h
        exact hasMarkerFile_of_probe fs _ hp

theorem intercalate_go_snoc (acc sep : String) (xs : List String) (x : String) :
    String.intercalate.go acc sep (xs ++ [x]) = String.intercalate.go acc sep xs ++ sep ++ x := by
  induction xs generalizing acc with
  | nil => rfl
  | cons y ys ih => exact ih _

theorem render_snoc_data (p : Path) (x : String) :
    ∃ pre : List Char, (render (p ++ [x])).data = pre ++ x.data := by
  cases p with
  | nil => exact ⟨['/'], rfl⟩
  | cons a rest =>
    refine ⟨"/".data ++ (String.intercalate.go a "/" rest).data ++ "/".data, ?_⟩
    simp [render, String.intercalate, intercalate_go_snoc, List.append_assoc]

/-- A marker path is no string that ends in another character than `l`. -/
theorem render_marker_ne (p : Path) (s : String) (hs : s.data.getLast? ≠ some 'l') :
    render (join p "azure.yaml") ≠ s := by
  intro h
  apply hs
  obtain ⟨pre, hpre⟩ := render_snoc_data p "azure.yaml"
  rw [← h, join_azure_yaml, hpre]
  simp [List.getLast?_append]

theorem projectFs_markers (p : Path) :
    projectFs.stat (render (join p "azure.yaml"))
      = projectNoAzureFs.stat (render (join p "azure.yaml")) := by
  have h1 := render_marker_ne p "/p/.azure" (by decide)
  have h2 := render_marker_ne p "/p/.azure/dev" (by decide)
  have h3 := render_marker_ne p "/p/.azure/config.json" (by decide)
  have h4 := render_marker_ne p "/p/.azure/dev/.env" (by decide)
  generalize render (join p "azure.yaml") = name at h1 h2 h3 h4
  have e3 : (name == "/p/.azure/config.json") = false := beq_eq_false_iff_ne.mpr h3
  have e4 : (name == "/p/.azure/dev/.env") = false := beq_eq_false_iff_ne.mpr h4
  simp [projectFs, projectNoAzureFs, memFs, List.lookup, h1, h2, e3, e4]

theorem resolve_of_name (P : Platform) (c : config) (hn : c.environmentName ≠ "") :
    resolve P c =
      match searchStart P c with
      | .error err => .error err
      | .ok start =>
        match findProject (c.FS P) start with
        | .error err => .error err
        | .ok d => .ok ⟨d, c.environmentName⟩ := by
  unfold resolve
  cases searchStart P c with
  | error err => rfl
  | ok start =>
    dsimp only
    cases findProject (c.FS P) start with
    | error err => rfl
    | ok d => simp [hn]

theorem searchStart_congr (P1 P2 : Platform) (c1 c2 : config)
    (hwd : P1.getwd = P2.getwd) (hcd : c1.currentDirectory = c2.currentDirectory) :
    searchStart P1 c1 = searchStart P2 c2 := by
  simp only [searchStart, filepathAbs, hwd, hcd]

theorem resolve_congr (names : List String) (P1 P2 : Platform) (c1 c2 : config)
    (hwd : P1.getwd = P2.getwd) (hc : configAgree names P1 P2 c1 c2)
    (hn : c1.environmentName ≠ "") :
    resolve P1 c1 = resolve P2 c2 := by
  obtain ⟨hcd, hname, hstat, _⟩ := hc
  rw [resolve_of_name P1 c1 hn, resolve_of_name P2 c2 (hname ▸ hn),
    searchStart_congr P1 P2 c1 c2 hwd hcd, hname]
  cases searchStart P2 c2 with
  | error err => rfl
  | ok start => simp only [findProject, ascend_congr (c1.FS P1) (c2.FS P2) _ hstat]

theorem resolve_ok_of_name (P : Platform) (c : config) (hn : c.environmentName ≠ "")
    (ctx : AzdContext) (h : resolve P c = .ok ctx) :
    ctx.environmentName = c.environmentName ∧
      hasMarkerFile (c.FS P) ctx.projectDirectory = true := by
  rw [resolve_of_name P c hn] at h
  cases hs : searchStart P c with
  | error err =>
    rw [hs] at h
    cases h
  | ok start =>
    rw [hs] at h
    cases hf : findProject (c.FS P) start with
    | error err =>
      simp only [hf] at h
      cases h
    | ok d =>
      simp only [hf, Except.ok.injEq] at h
      subst h
      exact ⟨rfl, hasMarkerFile_of_ascend (c.FS P) _ d hf⟩

theorem mem_startDirectories (opts : List AzdContextOption) (s : String)
    (h : AzdContextOption.WithCurrentDirectory s ∈ opts) : s ∈ startDirectories opts := by
  induction opts with
  | nil => cases h
  | cons o rest ih =>
    rcases List.mem_cons.mp h with heq | htail
    · subst heq
      simp [startDirectories]
    · cases o <;> simp [startDirectories, ih htail]

theorem apply_agree (names : List String) (P1 P2 : Platform) (c1 c2 : config)
    (o1 o2 : AzdContextOption)
    (hc : configAgree names P1 P2 c1 c2)
    (ho : optionAgree (statAgree names) o1 o2)
    (hs : ∀ s, o1 = AzdContextOption.WithCurrentDirectory s → s ∈ names) :
    outcomeAgree names P1 P2 (o1.apply P1 c1) (o2.apply P2 c2) := by
  obtain ⟨hcd, hname, hstat⟩ := hc
  cases o1 with
  | WithCurrentDirectory path1 =>
    cases o2 with
    | WithCurrentDirectory path2 =>
      have hp : path1 = path2 := ho
      subst hp
      have hsame : (c1.FS P1).stat path1 = (c2.FS P2).stat path1 := hstat.2 path1 (hs path1 rfl)
      simp only [AzdContextOption.apply, hsame]
      cases (c2.FS P2).stat path1 with
      | error err => rfl
      | ok info =>
        dsimp only
        cases info.isDir with
        | false =>
          show configAgree names P1 P2 c1 c2
          exact ⟨hcd, hname, hstat⟩
        | true =>
          show configAgree names P1 P2 ⟨path1, c1.environmentName, c1.fs⟩
            ⟨path1, c2.environmentName, c2.fs⟩
          exact ⟨rfl, hname, hstat⟩
    | WithEnvironmentName name2 => exact ho.elim
    | WithFS fs2 => exact ho.elim
  | WithEnvironmentName name1 =>
    cases o2 with
    | WithCurrentDirectory path2 => exact ho.elim
    | WithEnvironmentName name2 =>
      have hp : name1 = name2 := ho
      subst hp
      simp only [AzdContextOption.apply]
      split_ifs
      · rfl
      · show configAgree names P1 P2 ⟨c1.currentDirectory, name1, c1.fs⟩
          ⟨c2.currentDirectory, name1, c2.fs⟩
        exact ⟨hcd, rfl, hstat⟩
    | WithFS fs2 => exact ho.elim
  | WithFS fs1 =>
    cases o2 with
    | WithCurrentDirectory path2 => exact ho.elim
    | WithEnvironmentName name2 => exact ho.elim
    | WithFS fs2 =>
      have hp : statAgree names fs1 fs2 := ho
      show configAgree names P1 P2 ⟨c1.currentDirectory, c1.environmentName, some fs1⟩
        ⟨c2.currentDirectory, c2.environmentName, some fs2⟩
      exact ⟨hcd, hname, hp⟩

theorem applyOptions_agree (names : List String) (P1 P2 : Platform)
    (opts1 opts2 : List AzdContextOption)
    (ho : List.Forall₂ (optionAgree (statAgree names)) opts1 opts2)
    (hs : ∀ s, AzdContextOption.WithCurrentDirectory s ∈ opts1 → s ∈ names)
    (c1 c2 : config) (hc : configAgree names P1 P2 c1 c2) :
    outcomeAgree names P1 P2 (applyOptions P1 c1 opts1) (applyOptions P2 c2 opts2) := by
  induction ho generalizing c1 c2 with
  | nil => exact hc
  | @cons o1 o2 rest1 rest2 hhead _ ih =>
    have hstep := apply_agree names P1 P2 c1 c2 o1 o2 hc hhead
      (fun s hso => hs s (hso ▸ List.mem_cons_self _ _))
    simp only [applyOptions]
    cases h1 : o1.apply P1 c1 with
    | error err1 =>
      cases h2 : o2.apply P2 c2 with
      | error err2 =>
        rw [h1, h2] at hstep
        have he : err1 = err2 := hstep
        subst he
        rfl
      | ok d2 =>
        rw [h1, h2] at hstep
        exact hstep.elim
    | ok d1 =>
      cases h2 : o2.apply P2 c2 with
      | error err2 =>
        rw [h1, h2] at hstep
        exact hstep.elim
      | ok d2 =>
        rw [h1, h2] at hstep
        exact ih (fun s hso => hs s (List.mem_cons_of_mem _ hso)) d1 d2 hstep

theorem applyOptions_fields (P : Platform) (opts : List AzdContextOption) (c c1 : config)
    (h : applyOptions P c opts = .ok c1) :
    c1.environmentName = overrideName c.environmentName opts ∧
      c1.FS P = fsAfter (c.FS P) opts := by
  induction opts generalizing c with
  | nil =>
    simp only [applyOptions, Except.ok.injEq] at h
    subst h
    exact ⟨rfl, rfl⟩
  | cons o rest ih =>
    simp only [applyOptions] at h
    cases ha : o.apply P c with
    | error err =>
      rw [ha] at h
      cases h
    | ok d =>
      rw [ha] at h
      have hrest := ih d h
      cases o with
      | WithCurrentDirectory path =>
        simp only [AzdContextOption.apply] at ha
        cases hst : (c.FS P).stat path with
        | error err =>
          rw [hst] at ha
          cases ha
        | ok info =>
          rw [hst] at ha
          simp only at ha
          split_ifs at ha <;>
          · simp only [Except.ok.injEq] at ha
            subst ha
            exact hrest
      | WithEnvironmentName name =>
        simp only [AzdContextOption.apply] at ha
        split_ifs at ha
        simp only [Except.ok.injEq] at ha
        subst ha
        exact hrest
      | WithFS fs =>
        simp only [AzdContextOption.apply, Except.ok.injEq] at ha
        subst ha
        exact hrest

/-- Claim C5 as stated fails when the start directory named in the call is itself
`.azure`: the project with and without its `.azure` directory give the same `Stat`
answer on every marker path, and differ in the presence of `.azure` only, yet with
the start directory `/p/.azure` and the override `prod` the first call returns the
context of `/p` and the second fails in `WithCurrentDirectory`. -/
theorem C5_start_directory_counterexample :
    (∀ p : Path, projectFs.stat (render (join p "azure.yaml"))
      = projectNoAzureFs.stat (render (join p "azure.yaml"))) ∧
    NewAzdContext (examplePlatform projectFs "/")
      [.WithCurrentDirectory "/p/.azure", .WithEnvironmentName "prod"]
      = .ok ⟨["p"], "prod"⟩ ∧
    NewAzdContext (examplePlatform projectNoAzureFs "/")
      [.WithCurrentDirectory "/p/.azure", .WithEnvironmentName "prod"]
      = .error (.wrapped "setting option"
          (.pathError "stat" "/p/.azure" (.sentinel .ErrNotExist))) :=
  ⟨projectFs_markers, by decide, by decide⟩

/-- Claim C5, amended: with a non-empty environment-name override `n` the descriptor
is never read. Take the same call in two processes with the same working directory:
the same options in the same order, where the file systems (the default ones, and
those of any `WithFS`) agree on where the `azure.yaml` markers are and on `Stat` of
the start directories named with `WithCurrentDirectory`, and differ arbitrarily
otherwise, in particular in the presence and content of `.azure` and
`.azure/config.json` and in the descriptor reader. Then `NewAzdContext` returns the
same result in both, and on success `EnvironmentName = n`, the project directory `d`
holds the marker file, and `EnvironmentFile` is `filepath.Join (d, ".azure", n,
".env")`. -/
theorem NewAzdContext_override_ignores_descriptor (P1 P2 : Platform)
    (opts1 opts2 : List AzdContextOption) (n : String)
    (hwd : P1.getwd = P2.getwd)
    (hdefault : statAgree (startDirectories opts1) P1.defaultFs P2.defaultFs)
    (hopts : List.Forall₂ (optionAgree (statAgree (startDirectories opts1))) opts1 opts2)
    (hname : overrideName "" opts1 = n)
    (hn : n ≠ "") :
    NewAzdContext P1 opts1 = NewAzdContext P2 opts2 ∧
    ∀ ctx, NewAzdContext P1 opts1 = .ok ctx →
      ctx.EnvironmentName = n ∧
      hasMarkerFile (fsAfter P1.defaultFs opts1) ctx.ProjectDirectory = true ∧
      ctx.EnvironmentFile = joinAll ctx.ProjectDirectory [".azure", n, ".env"] ∧
      (isSimpleName n = true →
        ctx.EnvironmentFile = ctx.ProjectDirectory ++ [".azure", n, ".env"]) := by
  have hagree := applyOptions_agree (startDirectories opts1) P1 P2 opts1 opts2 hopts
    (mem_startDirectories opts1) ⟨"", "", none⟩ ⟨"", "", none⟩ ⟨rfl, rfl, hdefault⟩
  unfold NewAzdContext
  cases h1 : applyOptions P1 ⟨"", "", none⟩ opts1 with
  | error err1 =>
    cases h2 : applyOptions P2 ⟨"", "", none⟩ opts2 with
    | error err2 =>
      rw [h1, h2] at hagree
      have he : err1 = err2 := hagree
      subst he
      exact ⟨rfl, fun ctx hctx => by cases hctx⟩
    | ok c2 =>
      rw [h1, h2] at hagree
      exact hagree.elim
  | ok c1 =>
    cases h2 : applyOptions P2 ⟨"", "", none⟩ opts2 with
    | error err2 =>
      rw [h1, h2] at hagree
      exact hagree.elim
    | ok c2 =>
      rw [h1, h2] at hagree
      have hc : configAgree (startDirectories opts1) P1 P2 c1 c2 := hagree
      have hfields := applyOptions_fields P1 opts1 ⟨"", "", none⟩ c1 h1
      have hc1 : c1.environmentName = n := by rw [hfields.1, hname]
      have hne : c1.environmentName ≠ "" := by rw [hc1]; exact hn
      refine ⟨resolve_congr _ P1 P2 c1 c2 hwd hc hne, ?_⟩
      intro ctx hctx
      have hok := resolve_ok_of_name P1 c1 hne ctx hctx
      have hen : ctx.environmentName = n := by rw [hok.1, hc1]
      have hfs : c1.FS P1 = fsAfter P1.defaultFs opts1 := hfields.2
      have hfile := environmentFile_eq_joinAll ctx
      simp only [AzdContext.EnvironmentName, hen] at hfile
      refine ⟨hen, ?_, hfile, ?_⟩
      · rw [← hfs]
        exact hok.2
      · intro hsimple
        simp [AzdContext.EnvironmentFile, AzdContext.EnvironmentRoot,
          AzdContext.EnvironmentDirectory, AzdContext.ProjectDirectory, join_dot_azure,
          join_dot_env, hen, join_of_simple _ n hsimple]

/-- The amended claim C5 on the project with its descriptor naming `dev` and the same
project without any `.azure` directory, from `/p/src/wd` with the override `prod`:
as the file systems of two processes, in a call without `WithFS`, and as the file
systems given with `WithFS` as in context_test.go, both return the context of `/p`
with the name `prod`. -/
theorem NewAzdContext_override_ignores_descriptor_witness :
    NewAzdContext (examplePlatform projectFs "/")
      [.WithCurrentDirectory "/p/src/wd", .WithEnvironmentName "prod"]
      = NewAzdContext (examplePlatform projectNoAzureFs "/")
          [.WithCurrentDirectory "/p/src/wd", .WithEnvironmentName "prod"] ∧
    NewAzdContext (examplePlatform emptyFs "/")
      [.WithFS projectFs, .WithCurrentDirectory "/p/src/wd", .WithEnvironmentName "prod"]
      = NewAzdContext (examplePlatform emptyFs "/")
          [.WithFS projectNoAzureFs, .WithCurrentDirectory "/p/src/wd",
            .WithEnvironmentName "prod"] ∧
    NewAzdContext (examplePlatform projectFs "/")
      [.WithCurrentDirectory "/p/src/wd", .WithEnvironmentName "prod"]
      = .ok ⟨["p"], "prod"⟩ ∧
    render (AzdContext.EnvironmentFile ⟨["p"], "prod"⟩) = "/p/.azure/prod/.env" :=
  ⟨(NewAzdContext_override_ignores_descriptor (examplePlatform projectFs "/")
      (examplePlatform projectNoAzureFs "/")
      [.WithCurrentDirectory "/p/src/wd", .WithEnvironmentName "prod"]
      [.WithCurrentDirectory "/p/src/wd", .WithEnvironmentName "prod"] "prod"
      rfl ⟨projectFs_markers, by decide⟩
      (List.Forall₂.cons rfl (List.Forall₂.cons rfl List.Forall₂.nil))
      (by decide) (by decide)).1,
    (NewAzdContext_override_ignores_descriptor (examplePlatform emptyFs "/")
      (examplePlatform emptyFs "/")
      [.WithFS projectFs, .WithCurrentDirectory "/p/src/wd", .WithEnvironmentName "prod"]
      [.WithFS projectNoAzureFs, .WithCurrentDirectory "/p/src/wd", .WithEnvironmentName "prod"]
      "prod" rfl ⟨fun _ => rfl, fun _ _ => rfl⟩
      (List.Forall₂.cons ⟨projectFs_markers, by decide⟩
        (List.Forall₂.cons rfl (List.Forall₂.cons rfl List.Forall₂.nil)))
      (by decide) (by decide)).1,
    by decide, by decide⟩

/-! ## The process environment -/

theorem lookup_filter_ne (env : Env) (k key : String) (h : key ≠ k) :
    (env.filter (fun kv => kv.1 != k)).lookup key = env.lookup key := by
  induction env with
  | nil => rfl
  | cons kv rest ih =>
    obtain ⟨a, b⟩ := kv
    by_cases hak : a = k
    · subst hak
      have hka : (key == a) = false := beq_eq_false_iff_ne.mpr h
      simp [List.filter, List.lookup, hka, ih]
    · have hne : (a != k) = true := bne_iff_ne.mpr hak
      simp only [List.filter, hne, List.lookup, ih]

theorem setenv_of_accepts (env : Env) (k v : String) (h : setenvAccepts k v = true) :
    setenv k v env = .ok ((k, v) :: env.filter (fun kv => kv.1 != k)) := by
  simp only [setenvAccepts, Bool.and_eq_true, bne_iff_ne, ne_eq, Bool.not_eq_true_eq_eq_false] at h
  simp only [setenv, h.1.1, h.1.2, h.2, if_false, Bool.false_eq_true]

theorem lookupEnv_setenv_self (env : Env) (k v : String) (h : setenvAccepts k v = true) :
    lookupEnv (setenvDiscardingError k v env) k = some v := by
  simp [setenvDiscardingError, setenv_of_accepts env k v h, lookupEnv, List.lookup]

theorem lookupEnv_setenv_ne (env : Env) (k v key : String) (h : key ≠ k) :
    lookupEnv (setenvDiscardingError k v env) key = lookupEnv env key := by
  unfold setenvDiscardingError
  cases hs : setenv k v env with
  | error err => rfl
  | ok env1 =>
    have henv1 : env1 = (k, v) :: env.filter (fun kv => kv.1 != k) := by
      unfold setenv at hs
      split_ifs at hs
      exact (Except.ok.inj hs).symm
    have hk : (key == k) = false := beq_eq_false_iff_ne.mpr h
    simp only [henv1, lookupEnv, List.lookup, hk]
    exact lookup_filter_ne env k key h

/-- A key that the map does not define keeps its value. -/
theorem godotenvApply_fold_not_mem (overload : Bool) (env0 : Env)
    (envMap : List (String × String)) (acc : Env) (key : String)
    (h : key ∉ envMap.map Prod.fst) :
    lookupEnv (envMap.foldl
      (fun acc kv =>
        if (lookupEnv env0 kv.1).isNone || overload then setenvDiscardingError kv.1 kv.2 acc
        else acc)
      acc) key = lookupEnv acc key := by
  induction envMap generalizing acc with
  | nil => rfl
  | cons kv rest ih =>
    simp only [List.map_cons, List.mem_cons, not_or] at h
    simp only [List.foldl_cons]
    rw [ih _ h.2]
    split_ifs
    · exact lookupEnv_setenv_ne acc kv.1 kv.2 key h.1
    · rfl

/-- A key for which the policy does not assign keeps its value. -/
theorem godotenvApply_fold_skip (overload : Bool) (env0 : Env)
    (envMap : List (String × String)) (acc : Env) (key : String)
    (h : ((lookupEnv env0 key).isNone || overload) = false) :
    lookupEnv (envMap.foldl
      (fun acc kv =>
        if (lookupEnv env0 kv.1).isNone || overload then setenvDiscardingError kv.1 kv.2 acc
        else acc)
      acc) key = lookupEnv acc key := by
  induction envMap generalizing acc with
  | nil => rfl
  | cons kv rest ih =>
    simp only [List.foldl_cons]
    rw [ih]
    split_ifs with hc
    · have hne : key ≠ kv.1 := by
        intro he
        rw [he, hc] at h
        cases h
      exact lookupEnv_setenv_ne acc kv.1 kv.2 key hne
    · rfl

/-- A key of the map for which the policy assigns, with a key and value that
`os.Setenv` accepts, gets the value of the map. -/
theorem godotenvApply_fold_set (overload : Bool) (env0 : Env)
    (envMap : List (String × String)) (acc : Env) (key value : String)
    (hnodup : (envMap.map Prod.fst).Nodup) (hmem : (key, value) ∈ envMap)
    (haccepts : setenvAccepts key value = true)
    (h : ((lookupEnv env0 key).isNone || overload) = true) :
    lookupEnv (envMap.foldl
      (fun acc kv =>
        if (lookupEnv env0 kv.1).isNone || overload then setenvDiscardingError kv.1 kv.2 acc
        else acc)
      acc) key = some value := by
  induction envMap generalizing acc with
  | nil => cases hmem
  | cons kv rest ih =>
    simp only [List.map_cons, List.nodup_cons] at hnodup
    simp only [List.foldl_cons]
    rcases List.mem_cons.mp hmem with heq | htail
    · subst heq
      rw [godotenvApply_fold_not_mem overload env0 rest _ key hnodup.1]
      simp only [h, if_true]
      exact lookupEnv_setenv_self acc key value haccepts
    · exact ih _ hnodup.2 htail

theorem godotenvApply_preserve (envMap : List (String × String)) (env : Env)
    (key old : String) (h : lookupEnv env key = some old) :
    lookupEnv (godotenvApply false envMap env) key = some old := by
  unfold godotenvApply
  rw [godotenvApply_fold_skip false env envMap env key (by simp [h])]
  exact h

theorem godotenvApply_replace (envMap : List (String × String)) (env : Env)
    (key value : String) (hnodup : (envMap.map Prod.fst).Nodup) (hmem : (key, value) ∈ envMap)
    (haccepts : setenvAccepts key value = true) :
    lookupEnv (godotenvApply true envMap env) key = some value := by
  unfold godotenvApply
  exact godotenvApply_fold_set true env envMap env key value hnodup hmem haccepts (by simp)

theorem godotenvApply_unset (overload : Bool) (envMap : List (String × String)) (env : Env)
    (key value : String) (hnodup : (envMap.map Prod.fst).Nodup) (hmem : (key, value) ∈ envMap)
    (haccepts : setenvAccepts key value = true)
    (h : lookupEnv env key = none) :
    lookupEnv (godotenvApply overload envMap env) key = some value := by
  unfold godotenvApply
  exact godotenvApply_fold_set overload env envMap env key value hnodup hmem haccepts
    (by simp [h])

/-! ## Claims about Load -/

theorem applyLoadOptions_replace_only (l : loader) (opts : List LoadOption)
    (h : ∀ o ∈ opts, ∃ b, o = LoadOption.WithReplace b) :
    ∃ b, applyLoadOptions l opts = .ok ⟨l.context, b⟩ := by
  induction opts generalizing l with
  | nil => exact ⟨l.replace, rfl⟩
  | cons o rest ih =>
    obtain ⟨b, rfl⟩ := h o (List.mem_cons_self _ _)
    obtain ⟨b2, hb2⟩ := ih ⟨l.context, b⟩ (fun o ho => h o (List.mem_cons_of_mem _ ho))
    exact ⟨b2, by simpa [applyLoadOptions, LoadOption.apply] using hb2⟩

theorem Load_eq_loadFile (P : Platform) (opts : List LoadOption) (env : Env) (l : loader)
    (ctx : AzdContext)
    (hopts : applyLoadOptions ⟨none, false⟩ opts = .ok l)
    (hctx : l.context = some ctx ∨ (l.context = none ∧ NewAzdContext P [] = .ok ctx)) :
    Load P opts env = loadFile P ctx l.replace env := by
  unfold Load
  rw [hopts]
  rcases hctx with h | ⟨h1, h2⟩
  · simp only [h]
  · simp only [h1, h2]

theorem loadFile_of_error (P : Platform) (ctx : AzdContext) (replace : Bool) (env : Env)
    (err : Error)
    (h : godotenvLoadFile P (render ctx.EnvironmentFile) replace env = .error err) :
    loadFile P ctx replace env =
      if errorsIs err .ErrNotExist then ⟨false, none, env⟩
      else ⟨false, some (.wrapped "loading environment variables" err), env⟩ := by
  unfold loadFile
  cases replace <;> simp [godotenvLoad, godotenvOverload, h]

theorem loadFile_of_ok (P : Platform) (ctx : AzdContext) (replace : Bool) (env : Env)
    (content : String) (envMap : List (String × String))
    (hread : P.osReadFile (render ctx.EnvironmentFile) = .ok content)
    (hparse : P.dotenvParse content = .ok envMap) :
    loadFile P ctx replace env = ⟨true, none, godotenvApply replace envMap env⟩ := by
  unfold loadFile
  cases replace <;> simp [godotenvLoad, godotenvOverload, godotenvLoadFile, hread, hparse]

/-- Claim C2 as stated fails: in a file system without any marker, `Load` without
`WithContext` returns false together with a non-nil error, the wrapped
`ErrNoProject`, since `ErrNoProject` is not of the class `fs.ErrNotExist`. -/
theorem C2_no_project_counterexample :
    (∀ t ∈ (["work"] : Path).inits, markerMissing emptyFs t = true) ∧
    Load (examplePlatform emptyFs "/work") [] []
      = ⟨false, some (.wrapped "getting default context" (.sentinel .ErrNoProject)), []⟩ ∧
    (Load (examplePlatform emptyFs "/work") [] []).err ≠ none ∧
    errorsIs (.sentinel .ErrNoProject) .ErrNotExist = false := by
  decide

/-- Claim C2, amended: when in the current working directory and in every directory
above it `Stat` of the default file system reports `azure.yaml` as not existing or as
a directory, `Load` called without `WithContext` returns false and a non-nil error,
`ErrNoProject` wrapped as "getting default context", and leaves the process
environment as it was. -/
theorem Load_no_project (P : Platform) (opts : List LoadOption) (env : Env) (start : Path)
    (hopts : ∀ o ∈ opts, ∃ b, o = LoadOption.WithReplace b)
    (hstart : searchStart P ⟨"", "", none⟩ = .ok start)
    (hmissing : ∀ t ∈ start.inits, markerMissing P.defaultFs t = true) :
    Load P opts env
      = ⟨false, some (.wrapped "getting default context" (.sentinel .ErrNoProject)), env⟩ ∧
    errorsIs (.wrapped "getting default context" (.sentinel .ErrNoProject)) .ErrNoProject = true := by
  have hfind : findProject P.defaultFs start = .error (.sentinel .ErrNoProject) :=
    findProject_none _ start (fun t ht => hmissing t ((List.mem_inits t start).mpr ht))
  have hnew : NewAzdContext P [] = .error (.sentinel .ErrNoProject) := by
    simp [NewAzdContext, applyOptions, resolve, hstart, config.FS, hfind]
  obtain ⟨b, hb⟩ := applyLoadOptions_replace_only ⟨none, false⟩ opts hopts
  refine ⟨?_, rfl⟩
  unfold Load
  rw [hb]
  simp [hnew, errorsIs]

/-- The amended claim C2 in a file system with nothing but `/work`, in replace mode. -/
theorem Load_no_project_witness :
    Load (examplePlatform emptyFs "/work") [.WithReplace true] [("A", "0")]
      = ⟨false, some (.wrapped "getting default context" (.sentinel .ErrNoProject)), [("A", "0")]⟩ :=
  (Load_no_project (examplePlatform emptyFs "/work") [.WithReplace true] [("A", "0")] ["work"]
    (by decide) (by decide) (by decide)).1

/-- Claim C9: for the context `ctx` that `Load` works with, supplied by `WithContext`
or resolved by `Load` itself, and under either policy: when reading the path
`EnvironmentFile` fails with an error of the class `fs.ErrNotExist`, `Load` returns
false and a nil error and leaves the process environment unchanged; when reading
fails with any other error, or the content read does not parse, `Load` returns false
and that error, non-nil, wrapped as "loading environment variables". -/
theorem Load_environment_file_failure (P : Platform) (opts : List LoadOption) (env : Env)
    (l : loader) (ctx : AzdContext)
    (hopts : applyLoadOptions ⟨none, false⟩ opts = .ok l)
    (hctx : l.context = some ctx ∨ (l.context = none ∧ NewAzdContext P [] = .ok ctx)) :
    (∀ err, P.osReadFile (render ctx.EnvironmentFile) = .error err →
      errorsIs err .ErrNotExist = true → Load P opts env = ⟨false, none, env⟩) ∧
    (∀ err, P.osReadFile (render ctx.EnvironmentFile) = .error err →
      errorsIs err .ErrNotExist = false →
      Load P opts env = ⟨false, some (.wrapped "loading environment variables" err), env⟩) ∧
    (∀ content err, P.osReadFile (render ctx.EnvironmentFile) = .ok content →
      P.dotenvParse content = .error err → errorsIs err .ErrNotExist = false →
      Load P opts env = ⟨false, some (.wrapped "loading environment variables" err), env⟩) := by
  have hload := Load_eq_loadFile P opts env l ctx hopts hctx
  refine ⟨?_, ?_, ?_⟩
  · intro err hread his
    have hg : godotenvLoadFile P (render ctx.EnvironmentFile) l.replace env = .error err := by
      simp [godotenvLoadFile, hread]
    rw [hload, loadFile_of_error P ctx l.replace env err hg]
    simp [his]
  · intro err hread his
    have hg : godotenvLoadFile P (render ctx.EnvironmentFile) l.replace env = .error err := by
      simp [godotenvLoadFile, hread]
    rw [hload, loadFile_of_error P ctx l.replace env err hg]
    simp [his]
  · intro content err hread hparse his
    have hg : godotenvLoadFile P (render ctx.EnvironmentFile) l.replace env = .error err := by
      simp [godotenvLoadFile, hread, hparse]
    rw [hload, loadFile_of_error P ctx l.replace env err hg]
    simp [his]

/-- Claim C9 on the scenario of the specification: the project of the test cases with
the environment name `prod`, for which there is no directory `/p/.azure/prod`; the
variable `A` that was set keeps its value. -/
theorem Load_environment_file_failure_witness :
    Load (examplePlatform projectFs "/p/src/wd")
      [.WithContext (some ⟨["p"], "prod"⟩), .WithReplace true] [("A", "0")]
      = ⟨false, none, [("A", "0")]⟩ :=
  (Load_environment_file_failure (examplePlatform projectFs "/p/src/wd")
    [.WithContext (some ⟨["p"], "prod"⟩), .WithReplace true] [("A", "0")]
    ⟨some ⟨["p"], "prod"⟩, true⟩ ⟨["p"], "prod"⟩ (by decide) (by decide)).1
    (.pathError "open" "/p/.azure/prod/.env" (.sentinel .ErrNotExist)) (by decide) (by decide)

/-- Claim C10 as stated fails for a key that `os.Setenv` does not accept: the
environment file of the one line `A` defines the empty key, which is not set before
the call; `Load` succeeds in both modes and the empty key is still not set. -/
theorem C10_rejected_key_counterexample :
    exampleParse "A" = .ok [("", "A")] ∧
    lookupEnv [] "" = none ∧
    Load (examplePlatform bareNameFs "/p/src/wd") [] [] = ⟨true, none, []⟩ ∧
    Load (examplePlatform bareNameFs "/p/src/wd") [.WithReplace true] [] = ⟨true, none, []⟩ ∧
    lookupEnv (Load (examplePlatform bareNameFs "/p/src/wd") [] []).env "" = none ∧
    lookupEnv (Load (examplePlatform bareNameFs "/p/src/wd") [.WithReplace true] []).env ""
      = none := by
  decide

/-- Claim C10, amended: let `Load` succeed on an environment file whose parsed map
`envMap` (a map: no key twice) defines `key` with `value`, a key and value that
`os.Setenv` accepts (the key not empty and without `=` or NUL, the value without
NUL), for the loader `l` that the options produce (`l.replace` is false by default
and after `WithReplace (false)`, true after `WithReplace (true)`). If `key` was set
before the call, then afterwards it has its previous value when `l.replace` is false
and the value of the file when `l.replace` is true; if `key` was not set before the
call, it has the value of the file in both modes. -/
theorem Load_replace_policy (P : Platform) (opts : List LoadOption) (env : Env)
    (l : loader) (ctx : AzdContext) (content : String) (envMap : List (String × String))
    (key value : String)
    (hopts : applyLoadOptions ⟨none, false⟩ opts = .ok l)
    (hctx : l.context = some ctx ∨ (l.context = none ∧ NewAzdContext P [] = .ok ctx))
    (hread : P.osReadFile (render ctx.EnvironmentFile) = .ok content)
    (hparse : P.dotenvParse content = .ok envMap)
    (hnodup : (envMap.map Prod.fst).Nodup)
    (hmem : (key, value) ∈ envMap)
    (haccepts : setenvAccepts key value = true) :
    (Load P opts env).loaded = true ∧
    (Load P opts env).err = none ∧
    (∀ old, lookupEnv env key = some old →
      lookupEnv (Load P opts env).env key = if l.replace then some value else some old) ∧
    (lookupEnv env key = none → lookupEnv (Load P opts env).env key = some value) := by
  have hload : Load P opts env = ⟨true, none, godotenvApply l.replace envMap env⟩ := by
    rw [Load_eq_loadFile P opts env l ctx hopts hctx]
    exact loadFile_of_ok P ctx l.replace env content envMap hread hparse
  rw [hload]
  refine ⟨rfl, rfl, ?_, ?_⟩
  · intro old hold
    cases hr : l.replace with
    | false => simpa using godotenvApply_preserve envMap env key old hold
    | true => simpa using godotenvApply_replace envMap env key value hnodup hmem haccepts
  · intro hunset
    exact godotenvApply_unset l.replace envMap env key value hnodup hmem haccepts hunset

/-- The amended claim C10 on the project of the test cases, whose file has the two
lines `A=1` and `B=2`, with `A` set to `0` before the call: by default `A` stays `0`,
with `WithReplace (true)` it becomes `1`, and `B`, not set before, becomes `2`. -/
theorem Load_replace_policy_witness :
    lookupEnv (Load (examplePlatform projectFs "/p/src/wd") [] [("A", "0")]).env "A"
      = some "0" ∧
    lookupEnv (Load (examplePlatform projectFs "/p/src/wd") [.WithReplace true] [("A", "0")]).env "A"
      = some "1" ∧
    lookupEnv (Load (examplePlatform projectFs "/p/src/wd") [.WithReplace false] [("A", "0")]).env "B"
      = some "2" :=
  ⟨(Load_replace_policy (examplePlatform projectFs "/p/src/wd") [] [("A", "0")]
      ⟨none, false⟩ ⟨["p"], "dev"⟩ "A=1\nB=2" [("A", "1"), ("B", "2")] "A" "1"
      (by decide) (by decide) (by decide) (by decide) (by decide) (by decide)
      (by decide)).2.2.1 "0" (by decide),
    (Load_replace_policy (examplePlatform projectFs "/p/src/wd") [.WithReplace true] [("A", "0")]
      ⟨none, true⟩ ⟨["p"], "dev"⟩ "A=1\nB=2" [("A", "1"), ("B", "2")] "A" "1"
      (by decide) (by decide) (by decide) (by decide) (by decide) (by decide)
      (by decide)).2.2.1 "0" (by decide),
    (Load_replace_policy (examplePlatform projectFs "/p/src/wd") [.WithReplace false] [("A", "0")]
      ⟨none, false⟩ ⟨["p"], "dev"⟩ "A=1\nB=2" [("A", "1"), ("B", "2")] "B" "2"
      (by decide) (by decide) (by decide) (by decide) (by decide) (by decide)
      (by decide)).2.2.2 (by decide)⟩

end Dotazure
